import Mathlib

/-!
Shallow embedding of the tern-parser repository (src/main.rs): a three-stage
pipeline that tokenizes a restricted-alphabet arithmetic string
(letters a..f standing for + - * / ( ) plus decimal digit runs),
parses the tokens by recursive descent into an expression tree with flat
left-associative operator chaining, and evaluates the tree to an integer.

Modelling conventions:
* Rust `i64` values are modelled as unbounded `Int`/`Nat`.  The one place the
  source can overflow with observable effect in the claims' scope is
  `format!(..).parse::<i64>().unwrap()` in `lexicon`, which panics when a digit
  run exceeds `i64::MAX`; that panic is modelled explicitly via the `i64Max`
  bound.  Arithmetic overflow during evaluation is outside every claim.
* Rust panics (`unwrap` on an exhausted iterator, the `panic!` arm of `eval`,
  division by zero) are modelled as explicit `panic` result values, never as
  Lean partiality.
* The parser functions are indexed by a fuel argument that strictly decreases
  on every recursive call, which keeps them structurally recursive; the
  entry points run with fuel `2 * length + 2`, proven sufficient below
  (`parserSound`), so the `fuelOut` result is an unreachable artifact.
-/

/-- Tokens of the input language (src/main.rs, `enum Token`). -/
inductive Token where
  | Plus        : Token
  | Dash        : Token
  | Star        : Token
  | Slash       : Token
  | LeftParen   : Token
  | RightParen  : Token
  | Number      : Int → Token
  | End         : Token
deriving DecidableEq

/-- Arithmetic operations (src/main.rs, `enum Operator`). -/
inductive Operator where
  | Add      : Operator
  | Multiply : Operator
  | Divide   : Operator
  | Subtract : Operator
  | Negative : Operator
deriving DecidableEq

/-- Expression trees (src/main.rs, `enum Expression`). -/
inductive Expression where
  | Number : Int → Expression
  | Unary  : Operator → Expression → Expression
  | Binary : Operator → Expression → Expression → Expression
deriving DecidableEq

/-- Rendering of a token mirroring the Rust `{:?}` (derived `Debug`) output,
used inside parser error messages. -/
def Token.describe : Token → String
  | .Plus => "Plus"
  | .Dash => "Dash"
  | .Star => "Star"
  | .Slash => "Slash"
  | .LeftParen => "LeftParen"
  | .RightParen => "RightParen"
  | .Number n => "Number(" ++ toString n ++ ")"
  | .End => "End"

/-- Structured error (src/main.rs, `struct SyntaxError`). -/
structure SyntaxError where
  message : String
  level : String
deriving DecidableEq

/-- `SyntaxError::new_lex_error`. -/
def SyntaxError.new_lex_error (message : String) : SyntaxError :=
  ⟨message, "Lexicon"⟩

/-- `SyntaxError::new_parse_error`. -/
def SyntaxError.new_parse_error (message : String) : SyntaxError :=
  ⟨message, "Parse"⟩

/-- Evaluation of an expression tree (src/main.rs, `Expression::eval`).

`none` models a Rust panic / process abort: the `panic!` catch-all arm
(reachable exactly for `Binary Negative`) and integer division by zero.
Division uses `Int.tdiv`, Lean's truncating (round-toward-zero) division,
which is the semantics of Rust `i64` division.  The unary arm ignores the
operator it carries, exactly as the `Expression::Unary(_negative, expr)`
pattern does. -/
def Expression.eval : Expression → Option Int
  | .Number n => some n
  | .Unary _negative e => Option.map (fun v => -1 * v) e.eval
  | .Binary .Add e1 e2 =>
      match e1.eval, e2.eval with
      | some a, some b => some (a + b)
      | _, _ => none
  | .Binary .Subtract e1 e2 =>
      match e1.eval, e2.eval with
      | some a, some b => some (a - b)
      | _, _ => none
  | .Binary .Multiply e1 e2 =>
      match e1.eval, e2.eval with
      | some a, some b => some (a * b)
      | _, _ => none
  | .Binary .Divide e1 e2 =>
      match e1.eval, e2.eval with
      | some a, some b => if b = 0 then none else some (Int.tdiv a b)
      | _, _ => none
  | .Binary .Negative _ _ => none

/-- Result of tokenization.  `panic` models the abort of
`parse::<i64>().unwrap()` on a digit run exceeding `i64::MAX`. -/
inductive LexRes where
  | ok    : List Token → LexRes
  | error : SyntaxError → LexRes
  | panic : LexRes
deriving DecidableEq

/-- Prepend a token to a successful tokenization (models `tokens.push`,
with failures propagating unchanged). -/
def LexRes.consToken (t : Token) : LexRes → LexRes
  | .ok ts => .ok (t :: ts)
  | .error e => .error e
  | .panic => .panic

/-- The fixed letter-to-token mapping of `lexicon`'s match arms
(`'a'` through `'f'`); `none` for any other character. -/
def charToken (c : Char) : Option Token :=
  if c = 'a' then some Token.Plus
  else if c = 'b' then some Token.Dash
  else if c = 'c' then some Token.Star
  else if c = 'd' then some Token.Slash
  else if c = 'e' then some Token.LeftParen
  else if c = 'f' then some Token.RightParen
  else none

/-- Numeric value of an ASCII digit character. -/
def digitVal (c : Char) : Nat := c.toNat - 48

/-- `i64::MAX`, the largest value `parse::<i64>()` accepts: 2^63 - 1. -/
def i64Max : Nat := 2 ^ 63 - 1

/-- Core scanning loop of `lexicon` (src/main.rs).  The first argument is the
scanner state: `some n` means a digit run with accumulated base-10 value `n`
is in progress — this is the faithful rendering of the Rust
`take_while`/`leftover` mechanism, where a maximal digit run is consumed and
the delimiting character is re-dispatched on the next loop iteration (hence
the `some`-state duplicates the character dispatch after emitting the
`Number` token).  The `i64Max` guard sits where Rust runs
`parse::<i64>().unwrap()`: when the run is complete, before the delimiter is
processed; a larger value is the modelled panic. -/
def lexAux : Option Nat → List Char → LexRes
  | none, [] => .ok [Token.End]
  | some n, [] =>
      if i64Max < n then .panic
      else .ok [Token.Number (Int.ofNat n), Token.End]
  | none, c :: rest =>
      if c = ' ' then lexAux none rest
      else
        match charToken c with
        | some t => (lexAux none rest).consToken t
        | none =>
          if c.isDigit then lexAux (some (digitVal c)) rest
          else .error (SyntaxError.new_lex_error
            ("Unrecognized character " ++ c.toString ++ ". Skipping it."))
  | some n, c :: rest =>
      if c.isDigit then lexAux (some (10 * n + digitVal c)) rest
      else if i64Max < n then .panic
      else if c = ' ' then
        (lexAux none rest).consToken (Token.Number (Int.ofNat n))
      else
        match charToken c with
        | some t =>
            ((lexAux none rest).consToken t).consToken (Token.Number (Int.ofNat n))
        | none => .error (SyntaxError.new_lex_error
            ("Unrecognized character " ++ c.toString ++ ". Skipping it."))

/-- `lexicon` (src/main.rs): scan the whole input, starting outside any
digit run. -/
def lexicon (cs : List Char) : LexRes := lexAux none cs

/-- `Parser::assert_next` (src/main.rs): consume one token and require it to
equal the expected one; a missing or different token is a parse error. -/
def assert_next (ts : List Token) (t : Token) : Except SyntaxError (List Token) :=
  match ts with
  | [] => .error (SyntaxError.new_parse_error "End of input unexpected")
  | next :: rest =>
      if next = t then .ok rest
      else .error (SyntaxError.new_parse_error
        ("Expected " ++ t.describe ++ " but actual " ++ next.describe))

/-- Result of a parser routine: the produced expression together with the
unconsumed remainder of the token stream, or a `SyntaxError`.  `panic` models
the Rust `self.iter.next().unwrap()` / `self.iter.peek().unwrap()` abort on an
exhausted stream; `fuelOut` is an artifact of the fuel-indexed embedding,
proven unreachable for the fuel the entry points use. -/
inductive PRes where
  | ok      : Expression → List Token → PRes
  | err     : SyntaxError → PRes
  | panic   : PRes
  | fuelOut : PRes
deriving DecidableEq

/-- Sequencing of parser steps: continue with the produced expression and
remainder on success, propagate errors/panics unchanged (the `?` operator
plus the `match result` dispatch of the source). -/
def PRes.andThen (r : PRes) (f : Expression → List Token → PRes) : PRes :=
  match r with
  | .ok e rest => f e rest
  | .err er => .err er
  | .panic => .panic
  | .fuelOut => .fuelOut

/-- Sequencing of an `assert_next` call into a parser computation: continue
with the remainder on success, turn the `SyntaxError` into a parser error
result otherwise (the `?` operator applied to `assert_next`). -/
def PRes.ofAssert (r : Except SyntaxError (List Token)) (f : List Token → PRes) : PRes :=
  match r with
  | .ok rest => f rest
  | .error er => .err er

mutual

/-- `Parser::primary_expression` (src/main.rs): a number, a parenthesized
expression, or a unary minus applied to a primary expression. -/
def primaryF : Nat → List Token → PRes
  | 0, _ => .fuelOut
  | _ + 1, [] => .panic
  | fuel + 1, t :: rest =>
    match t with
    | .Number n => .ok (.Number n) rest
    | .LeftParen =>
        (expressionF fuel rest).andThen fun e rest' =>
          PRes.ofAssert (assert_next rest' .RightParen) fun rest'' =>
            .ok e rest''
    | .Dash =>
        (primaryF fuel rest).andThen fun e rest' =>
          .ok (.Unary .Negative e) rest'
    | _ => .err (SyntaxError.new_parse_error ("Unexpected token " ++ t.describe))

/-- `Parser::expression` (src/main.rs): one primary expression followed by the
operator-chaining loop. -/
def expressionF : Nat → List Token → PRes
  | 0, _ => .fuelOut
  | fuel + 1, ts =>
    (primaryF fuel ts).andThen fun e rest => exprLoopF fuel e rest

/-- The `loop` inside `Parser::expression`: peek the next token; on one of the
four binary-operator tokens, consume it, parse the right-hand primary
expression and fold it into the accumulator left-associatively; on any other
token, break without consuming.  Peeking an empty stream is the modelled
`unwrap` panic. -/
def exprLoopF : Nat → Expression → List Token → PRes
  | 0, _, _ => .fuelOut
  | _ + 1, _, [] => .panic
  | fuel + 1, acc, t :: rest =>
    match t with
    | .Plus =>
        (primaryF fuel rest).andThen fun rhs rest' =>
          exprLoopF fuel (.Binary .Add acc rhs) rest'
    | .Dash =>
        (primaryF fuel rest).andThen fun rhs rest' =>
          exprLoopF fuel (.Binary .Subtract acc rhs) rest'
    | .Star =>
        (primaryF fuel rest).andThen fun rhs rest' =>
          exprLoopF fuel (.Binary .Multiply acc rhs) rest'
    | .Slash =>
        (primaryF fuel rest).andThen fun rhs rest' =>
          exprLoopF fuel (.Binary .Divide acc rhs) rest'
    | _ => .ok acc (t :: rest)

end

/-- `Parser::parse` (src/main.rs): one expression, then the `End` sentinel. -/
def parseF (fuel : Nat) (ts : List Token) : PRes :=
  (expressionF fuel ts).andThen fun ast rest =>
    PRes.ofAssert (assert_next rest .End) fun rest' => .ok ast rest'

/-- Fuel budget for a run of the parser; proven sufficient in `parserSound`. -/
def parseFuel (ts : List Token) : Nat := 2 * ts.length + 2

/-- Entry point corresponding to `Parser::parse` on a fresh parser. -/
def parse (ts : List Token) : PRes := parseF (parseFuel ts) ts

/-- `Parser::expression` run on a fresh stream (same fuel budget `parse`
hands it). -/
def expression (ts : List Token) : PRes := expressionF (parseFuel ts) ts

/-- Observable outcome of the whole pipeline.  `panic` collects every Rust
abort (lexer number-parse unwrap, parser iterator unwraps, evaluator
`panic!`/division by zero); `fuelOut` is the unreachable fuel artifact. -/
inductive Output where
  | ok      : Int → Output
  | error   : SyntaxError → Output
  | panic   : Output
  | fuelOut : Output
deriving DecidableEq

/-- `eval_expr` (src/main.rs): tokenize, parse, evaluate. -/
def eval_expr (input : List Char) : Output :=
  match lexicon input with
  | .error e => .error e
  | .panic => .panic
  | .ok tokens =>
      match parse tokens with
      | .ok ast _rest =>
          match ast.eval with
          | some v => .ok v
          | none => .panic
      | .err e => .error e
      | .panic => .panic
      | .fuelOut => .fuelOut

/-! ### Lexer lemmas -/

/-- Inverting a successful `consToken`. -/
theorem LexRes.consToken_eq_ok {r : LexRes} {t : Token} {ts : List Token}
    (h : r.consToken t = .ok ts) : ∃ ts0, r = .ok ts0 ∧ ts = t :: ts0 := by
  cases r with
  | ok ts0 =>
    simp only [LexRes.consToken, LexRes.ok.injEq] at h
    exact ⟨ts0, rfl, h.symm⟩
  | error e => simp [LexRes.consToken] at h
  | panic => simp [LexRes.consToken] at h

/-- The letter map never yields the `End` sentinel. -/
theorem charToken_ne_end {c : Char} {t : Token} (h : charToken c = some t) :
    t ≠ Token.End := by
  unfold charToken at h
  split_ifs at h <;> simp only [Option.some.injEq] at h <;> simp [h.symm]

/-- A digit is none of the six mapping letters. -/
theorem charToken_eq_none_of_isDigit {c : Char} (h : c.isDigit = true) :
    charToken c = none := by
  unfold charToken
  split_ifs with h1 h2 h3 h4 h5 h6
  · exact absurd h (by subst h1; decide)
  · exact absurd h (by subst h2; decide)
  · exact absurd h (by subst h3; decide)
  · exact absurd h (by subst h4; decide)
  · exact absurd h (by subst h5; decide)
  · exact absurd h (by subst h6; decide)
  · rfl

/-- A character outside the six mapping letters maps to `none`. -/
theorem charToken_eq_none_of_not_mem {c : Char}
    (h : c ∉ ['a', 'b', 'c', 'd', 'e', 'f']) : charToken c = none := by
  unfold charToken
  split_ifs with h1 h2 h3 h4 h5 h6
  · exact absurd (by simp [h1]) h
  · exact absurd (by simp [h2]) h
  · exact absurd (by simp [h3]) h
  · exact absurd (by simp [h4]) h
  · exact absurd (by simp [h5]) h
  · exact absurd (by simp [h6]) h
  · rfl

/-- A digit is not the space character. -/
theorem isDigit_ne_space {c : Char} (h : c.isDigit = true) : ¬(c = ' ') :=
  fun hc => absurd h (by subst hc; decide)

/-- A non-whitespace character is not the space character. -/
theorem ne_space_of_not_whitespace {c : Char} (h : ¬(c.isWhitespace = true)) :
    ¬(c = ' ') :=
  fun hc => h (by subst hc; decide)

/-- Every successful tokenization ends with exactly one `End` sentinel,
whatever scanner state it starts from. -/
theorem lexAux_ok_append_end :
    ∀ (cs : List Char) (st : Option Nat) (ts : List Token),
      lexAux st cs = .ok ts → ∃ ts0, ts = ts0 ++ [Token.End] ∧ Token.End ∉ ts0 := by
  intro cs
  induction cs with
  | nil =>
    intro st ts h
    cases st with
    | none =>
      simp only [lexAux, LexRes.ok.injEq] at h
      exact ⟨[], h.symm ▸ rfl, by simp⟩
    | some n =>
      simp only [lexAux] at h
      split_ifs at h
      simp only [LexRes.ok.injEq] at h
      exact ⟨[Token.Number (Int.ofNat n)], h.symm ▸ rfl, by simp⟩
  | cons c rest ih =>
    intro st ts h
    cases st with
    | none =>
      simp only [lexAux] at h
      by_cases hsp : c = ' '
      · rw [if_pos hsp] at h
        exact ih none ts h
      · rw [if_neg hsp] at h
        cases hct : charToken c with
        | some t =>
          rw [hct] at h
          obtain ⟨ts0, hr, hts⟩ := LexRes.consToken_eq_ok h
          obtain ⟨ts1, h1, h2⟩ := ih none ts0 hr
          subst hts h1
          refine ⟨t :: ts1, rfl, ?_⟩
          simp only [List.mem_cons, not_or]
          exact ⟨fun he => charToken_ne_end hct he.symm, h2⟩
        | none =>
          rw [hct] at h
          by_cases hd : c.isDigit
          · rw [if_pos hd] at h
            exact ih (some (digitVal c)) ts h
          · rw [if_neg hd] at h
            simp at h
    | some n =>
      simp only [lexAux] at h
      by_cases hd : c.isDigit
      · rw [if_pos hd] at h
        exact ih (some (10 * n + digitVal c)) ts h
      · rw [if_neg hd] at h
        by_cases hov : i64Max < n
        · rw [if_pos hov] at h
          simp at h
        · rw [if_neg hov] at h
          by_cases hsp : c = ' '
          · rw [if_pos hsp] at h
            obtain ⟨ts0, hr, hts⟩ := LexRes.consToken_eq_ok h
            obtain ⟨ts1, h1, h2⟩ := ih none ts0 hr
            subst hts h1
            refine ⟨Token.Number (Int.ofNat n) :: ts1, rfl, ?_⟩
            simp only [List.mem_cons, not_or]
            exact ⟨by simp, h2⟩
          · rw [if_neg hsp] at h
            cases hct : charToken c with
            | some t =>
              rw [hct] at h
              obtain ⟨ts0, hr, hts⟩ := LexRes.consToken_eq_ok h
              obtain ⟨ts1, hr1, hts1⟩ := LexRes.consToken_eq_ok hr
              obtain ⟨ts2, h1, h2⟩ := ih none ts1 hr1
              subst hts hts1 h1
              refine ⟨Token.Number (Int.ofNat n) :: t :: ts2, rfl, ?_⟩
              simp only [List.mem_cons, not_or]
              exact ⟨by simp, fun he => charToken_ne_end hct he.symm, h2⟩
            | none =>
              rw [hct] at h
              simp at h

/-- The `End` sentinel occurs in every successful tokenization. -/
theorem lexicon_ok_mem_end {cs : List Char} {ts : List Token}
    (h : lexicon cs = .ok ts) : Token.End ∈ ts := by
  obtain ⟨ts0, h1, _⟩ := lexAux_ok_append_end cs none ts h
  subst h1
  simp

/-- Claim C4: a successful tokenization always ends with exactly one `End`
token, and the empty input yields exactly `[End]`. -/
theorem claim_C4 :
    (∀ (cs : List Char) (ts : List Token), lexicon cs = .ok ts →
        ∃ ts0, ts = ts0 ++ [Token.End] ∧ Token.End ∉ ts0) ∧
    lexicon [] = .ok [Token.End] :=
  ⟨fun cs ts h => lexAux_ok_append_end cs none ts h, rfl⟩

theorem claim_C4_witness :
    ∃ ts0, [Token.Number 7, Token.End] = ts0 ++ [Token.End] ∧ Token.End ∉ ts0 :=
  claim_C4.1 ['7'] [Token.Number 7, Token.End] (by decide)

/-- Claim C5: a character that is not whitespace, not a mapping letter and
not an ASCII digit makes the scan fail on the spot with a `Lexicon`-level
error naming the character (in both scanner states the scan can reach it in),
and a lexical error short-circuits the pipeline, so no token sequence reaches
the parser. -/
theorem claim_C5 :
    (∀ (c : Char) (rest : List Char), ¬(c.isWhitespace = true) →
        c ∉ ['a', 'b', 'c', 'd', 'e', 'f'] → ¬(c.isDigit = true) →
        lexAux none (c :: rest) = .error (SyntaxError.new_lex_error
          ("Unrecognized character " ++ c.toString ++ ". Skipping it."))) ∧
    (∀ (n : Nat) (c : Char) (rest : List Char), n ≤ i64Max →
        ¬(c.isWhitespace = true) → c ∉ ['a', 'b', 'c', 'd', 'e', 'f'] →
        ¬(c.isDigit = true) →
        lexAux (some n) (c :: rest) = .error (SyntaxError.new_lex_error
          ("Unrecognized character " ++ c.toString ++ ". Skipping it."))) ∧
    (∀ m : String, (SyntaxError.new_lex_error m).level = "Lexicon") ∧
    (∀ (cs : List Char) (er : SyntaxError),
        lexicon cs = .error er → eval_expr cs = .error er) := by
  refine ⟨?_, ?_, fun m => rfl, ?_⟩
  · intro c rest hw hm hd
    simp only [lexAux, if_neg (ne_space_of_not_whitespace hw),
      charToken_eq_none_of_not_mem hm, if_neg hd]
  · intro n c rest hn hw hm hd
    simp only [lexAux, if_neg hd, if_neg (Nat.not_lt.mpr hn),
      if_neg (ne_space_of_not_whitespace hw), charToken_eq_none_of_not_mem hm]
  · intro cs er h
    simp [eval_expr, h]

theorem claim_C5_witness :
    lexAux none ['!'] = .error (SyntaxError.new_lex_error
      ("Unrecognized character " ++ '!'.toString ++ ". Skipping it.")) ∧
    lexAux (some 3) ['!'] = .error (SyntaxError.new_lex_error
      ("Unrecognized character " ++ '!'.toString ++ ". Skipping it.")) ∧
    eval_expr ['!'] = .error (SyntaxError.new_lex_error
      ("Unrecognized character " ++ '!'.toString ++ ". Skipping it.")) :=
  ⟨claim_C5.1 '!' [] (by decide) (by decide) (by decide),
   claim_C5.2.1 3 '!' [] (by decide) (by decide) (by decide) (by decide),
   claim_C5.2.2.2 ['!'] _ (claim_C5.1 '!' [] (by decide) (by decide) (by decide))⟩

/-- Base-10 interpretation of a digit run (the value `lexicon` parses out of
a run of consecutive ASCII digits). -/
def natOfDigits (cs : List Char) : Nat :=
  cs.foldl (fun a c => 10 * a + digitVal c) 0

/-- Scanning all-digit input from inside a digit run yields exactly the
accumulated number and the sentinel, provided the final value fits `i64`. -/
theorem lexAux_all_digits :
    ∀ (cs : List Char) (acc : Nat), cs.all Char.isDigit = true →
      List.foldl (fun a c => 10 * a + digitVal c) acc cs ≤ i64Max →
      lexAux (some acc) cs =
        .ok [Token.Number (Int.ofNat
          (List.foldl (fun a c => 10 * a + digitVal c) acc cs)), Token.End] := by
  intro cs
  induction cs with
  | nil =>
    intro acc _ hle
    simp only [List.foldl_nil] at hle ⊢
    simp only [lexAux, if_neg (Nat.not_lt.mpr hle)]
  | cons c rest ih =>
    intro acc hall hle
    simp only [List.all_cons, Bool.and_eq_true] at hall
    obtain ⟨hc, hrest⟩ := hall
    simp only [List.foldl_cons] at hle ⊢
    simp only [lexAux, hc, if_true]
    exact ih (10 * acc + digitVal c) hrest hle

/-- Claim C6 counterexample: a run of 19 nines is a non-empty all-digit
input, yet tokenization does not produce a `Number` token at all — its value
9999999999999999999 exceeds `i64::MAX`, so the `parse::<i64>().unwrap()` in
the source panics (modelled `LexRes.panic`). -/
theorem claim_C6_counterexample :
    (List.replicate 19 '9' ≠ ([] : List Char)) ∧
    (List.replicate 19 '9').all Char.isDigit = true ∧
    lexicon (List.replicate 19 '9') = .panic := by
  exact ⟨by decide, by decide, by decide⟩

/-- Claim C6 (amended): for every non-empty input consisting solely of ASCII
digits whose base-10 value is at most `i64::MAX`, tokenizing yields exactly
one `Number` token carrying that value, followed by `End`. -/
theorem claim_C6_amended :
    ∀ cs : List Char, cs ≠ [] → cs.all Char.isDigit = true →
      natOfDigits cs ≤ i64Max →
      lexicon cs = .ok [Token.Number (Int.ofNat (natOfDigits cs)), Token.End] := by
  intro cs hne hall hle
  cases cs with
  | nil => exact absurd rfl hne
  | cons c rest =>
    simp only [List.all_cons, Bool.and_eq_true] at hall
    obtain ⟨hc, hrest⟩ := hall
    have hfold : natOfDigits (c :: rest) =
        List.foldl (fun a c => 10 * a + digitVal c) (digitVal c) rest := by
      simp [natOfDigits]
    unfold lexicon
    simp only [lexAux, if_neg (isDigit_ne_space hc), charToken_eq_none_of_isDigit hc,
      hc, if_true]
    rw [hfold] at hle ⊢
    exact lexAux_all_digits rest (digitVal c) hrest hle

theorem claim_C6_witness :
    lexicon ['3', '2'] =
      .ok [Token.Number (Int.ofNat (natOfDigits ['3', '2'])), Token.End] :=
  claim_C6_amended ['3', '2'] (by decide) (by decide) (by decide)

/-- Claim C8 counterexample: the tab character is whitespace, yet the
tokenizer does not skip it — the source's match arm skips only `' '`, and tab
falls into the catch-all, producing a `Lexicon` error (so inserting this
whitespace character does change the outcome). -/
theorem claim_C8_counterexample :
    ('\t').isWhitespace = true ∧
    lexicon ['\t'] = .error (SyntaxError.new_lex_error
      ("Unrecognized character " ++ '\t'.toString ++ ". Skipping it.")) :=
  ⟨by decide, rfl⟩

/-- Claim C8 (amended): every *space* character (`' '`) is skipped and
produces no token — scanning a space outside a digit run continues exactly as
if the space were absent, and a space inside a digit run merely terminates
the run, emitting the pending `Number` token and nothing else.  Other
whitespace characters are not skipped (see the counterexample). -/
theorem claim_C8_amended :
    (∀ cs : List Char, lexAux none (' ' :: cs) = lexAux none cs) ∧
    (∀ (n : Nat) (cs : List Char), n ≤ i64Max →
        lexAux (some n) (' ' :: cs) =
          (lexAux none cs).consToken (Token.Number (Int.ofNat n))) := by
  constructor
  · intro cs
    simp [lexAux]
  · intro n cs hn
    simp [lexAux, if_neg (by decide : ¬((' ').isDigit = true)),
      if_neg (Nat.not_lt.mpr hn)]

theorem claim_C8_witness :
    lexAux (some 5) [' '] = (lexAux none []).consToken (Token.Number (Int.ofNat 5)) :=
  claim_C8_amended.2 5 [] (by decide)

/-! ### Parser lemmas -/

/-- `End` in a token stream whose head is not `End` is in the tail. -/
theorem end_mem_tail {t : Token} {rest : List Token}
    (h : Token.End ∈ t :: rest) (hne : t ≠ Token.End) : Token.End ∈ rest := by
  rcases List.mem_cons.mp h with h1 | h1
  · exact absurd h1.symm hne
  · exact h1

/-- `assert_next` either consumes exactly the expected head token or produces
a `Parse`-level error; it never panics. -/
theorem assert_next_cases (ts : List Token) (t : Token) :
    (∃ rest, ts = t :: rest ∧ assert_next ts t = .ok rest) ∨
    (∃ er, assert_next ts t = .error er ∧ er.level = "Parse") := by
  cases ts with
  | nil =>
    exact Or.inr ⟨SyntaxError.new_parse_error "End of input unexpected", rfl, rfl⟩
  | cons x xs =>
    by_cases hx : x = t
    · subst hx
      exact Or.inl ⟨xs, rfl, by simp [assert_next]⟩
    · refine Or.inr ⟨SyntaxError.new_parse_error
        ("Expected " ++ t.describe ++ " but actual " ++ x.describe), ?_, rfl⟩
      simp [assert_next, hx]

/-- Soundness of one parser result with respect to a length bound: a success
leaves a strictly shorter remainder still containing the `End` sentinel, an
error is `Parse`-level, and the panic/fuel-exhaustion outcomes are ruled
out. -/
def PRes.sound (bound : Nat) : PRes → Prop
  | .ok _ rest => rest.length < bound ∧ Token.End ∈ rest
  | .err er => er.level = "Parse"
  | .panic => False
  | .fuelOut => False

/-- The length bound in `PRes.sound` can be weakened. -/
theorem PRes.sound_mono {r : PRes} {b1 b2 : Nat} (h : r.sound b1) (hb : b1 ≤ b2) :
    r.sound b2 := by
  cases r with
  | ok e rest => exact ⟨Nat.lt_of_lt_of_le h.1 hb, h.2⟩
  | err er => exact h
  | panic => exact h
  | fuelOut => exact h

/-- Soundness propagates through `andThen`. -/
theorem PRes.andThen_sound {r : PRes} {b b' : Nat} {f : Expression → List Token → PRes}
    (h : r.sound b)
    (hf : ∀ e rest, rest.length < b → Token.End ∈ rest → (f e rest).sound b') :
    (r.andThen f).sound b' := by
  cases r with
  | ok e rest => exact hf e rest h.1 h.2
  | err er => exact h
  | panic => exact False.elim h
  | fuelOut => exact False.elim h

/-- Soundness propagates through `ofAssert` applied to `assert_next`. -/
theorem PRes.ofAssert_sound {ts : List Token} {t : Token} {b : Nat}
    {f : List Token → PRes} (hf : ∀ rest, ts = t :: rest → (f rest).sound b) :
    (PRes.ofAssert (assert_next ts t) f).sound b := by
  rcases assert_next_cases ts t with ⟨rest, hr, ha⟩ | ⟨er, ha, hlev⟩
  · rw [ha]
    exact hf rest hr
  · rw [ha]
    exact hlev

/-- Fuel sufficiency and soundness of the recursive-descent parser: on a
stream containing the `End` sentinel, each routine — given fuel at least
twice the stream length plus a small constant — never hits the modelled
`unwrap` panic, never exhausts its fuel, strictly consumes input on success
while keeping `End` in the remainder, and only ever reports `Parse`-level
errors. -/
theorem parserSound :
    ∀ fuel : Nat,
      (∀ ts : List Token, Token.End ∈ ts → 2 * ts.length + 1 ≤ fuel →
        (primaryF fuel ts).sound ts.length) ∧
      (∀ ts : List Token, Token.End ∈ ts → 2 * ts.length + 2 ≤ fuel →
        (expressionF fuel ts).sound ts.length) ∧
      (∀ (acc : Expression) (ts : List Token), Token.End ∈ ts →
        2 * ts.length + 2 ≤ fuel → (exprLoopF fuel acc ts).sound (ts.length + 1)) := by
  intro fuel
  induction fuel with
  | zero =>
    refine ⟨fun ts _ h => absurd h (by omega), fun ts _ h => absurd h (by omega),
      fun acc ts _ h => absurd h (by omega)⟩
  | succ fuel ih =>
    obtain ⟨ihP, ihE, ihL⟩ := ih
    refine ⟨?_, ?_, ?_⟩
    · -- primaryF
      intro ts hEnd hle
      rcases ts with _ | ⟨t, rest⟩
      · simp at hEnd
      · simp only [List.length_cons] at hle
        cases t with
        | Number n =>
          simp only [primaryF]
          exact ⟨by simp only [List.length_cons]; omega, end_mem_tail hEnd (by simp)⟩
        | LeftParen =>
          have hrest : Token.End ∈ rest := end_mem_tail hEnd (by simp)
          simp only [primaryF]
          refine PRes.andThen_sound (ihE rest hrest (by omega)) ?_
          intro e rest' hlt hmem
          refine PRes.ofAssert_sound ?_
          intro rest'' hr
          subst hr
          simp only [List.length_cons] at hlt
          exact ⟨by simp only [List.length_cons]; omega, end_mem_tail hmem (by simp)⟩
        | Dash =>
          have hrest : Token.End ∈ rest := end_mem_tail hEnd (by simp)
          simp only [primaryF]
          refine PRes.andThen_sound (ihP rest hrest (by omega)) ?_
          intro e rest' hlt hmem
          exact ⟨by simp only [List.length_cons]; omega, hmem⟩
        | Plus => exact rfl
        | Star => exact rfl
        | Slash => exact rfl
        | RightParen => exact rfl
        | End => exact rfl
    · -- expressionF
      intro ts hEnd hle
      simp only [expressionF]
      refine PRes.andThen_sound (ihP ts hEnd (by omega)) ?_
      intro e rest hlt hmem
      exact PRes.sound_mono (ihL e rest hmem (by omega)) (by omega)
    · -- exprLoopF
      intro acc ts hEnd hle
      rcases ts with _ | ⟨t, rest⟩
      · simp at hEnd
      · simp only [List.length_cons] at hle
        cases t with
        | Plus =>
          have hrest : Token.End ∈ rest := end_mem_tail hEnd (by simp)
          simp only [exprLoopF]
          refine PRes.andThen_sound (ihP rest hrest (by omega)) ?_
          intro rhs rest' hlt hmem
          exact PRes.sound_mono (ihL (.Binary .Add acc rhs) rest' hmem (by omega))
            (by simp only [List.length_cons]; omega)
        | Dash =>
          have hrest : Token.End ∈ rest := end_mem_tail hEnd (by simp)
          simp only [exprLoopF]
          refine PRes.andThen_sound (ihP rest hrest (by omega)) ?_
          intro rhs rest' hlt hmem
          exact PRes.sound_mono (ihL (.Binary .Subtract acc rhs) rest' hmem (by omega))
            (by simp only [List.length_cons]; omega)
        | Star =>
          have hrest : Token.End ∈ rest := end_mem_tail hEnd (by simp)
          simp only [exprLoopF]
          refine PRes.andThen_sound (ihP rest hrest (by omega)) ?_
          intro rhs rest' hlt hmem
          exact PRes.sound_mono (ihL (.Binary .Multiply acc rhs) rest' hmem (by omega))
            (by simp only [List.length_cons]; omega)
        | Slash =>
          have hrest : Token.End ∈ rest := end_mem_tail hEnd (by simp)
          simp only [exprLoopF]
          refine PRes.andThen_sound (ihP rest hrest (by omega)) ?_
          intro rhs rest' hlt hmem
          exact PRes.sound_mono (ihL (.Binary .Divide acc rhs) rest' hmem (by omega))
            (by simp only [List.length_cons]; omega)
        | Number n =>
          simp only [exprLoopF]
          exact ⟨by simp only [List.length_cons]; omega, hEnd⟩
        | LeftParen =>
          simp only [exprLoopF]
          exact ⟨by simp only [List.length_cons]; omega, hEnd⟩
        | RightParen =>
          simp only [exprLoopF]
          exact ⟨by simp only [List.length_cons]; omega, hEnd⟩
        | End =>
          simp only [exprLoopF]
          exact ⟨by simp only [List.length_cons]; omega, hEnd⟩

/-- On a stream containing the `End` sentinel, `parse` returns an AST or a
`Parse`-level error: the fuel budget is sufficient and no `unwrap` panic is
reachable. -/
theorem parse_sound {ts : List Token} (hEnd : Token.End ∈ ts) :
    (∃ ast rest, parse ts = .ok ast rest) ∨
    (∃ er, parse ts = .err er ∧ er.level = "Parse") := by
  have hE := (parserSound (parseFuel ts)).2.1 ts hEnd (by simp [parseFuel])
  unfold parse parseF
  cases hres : expressionF (parseFuel ts) ts with
  | ok ast rest =>
    rw [hres] at hE
    simp only [PRes.andThen]
    rcases assert_next_cases rest Token.End with ⟨rest', hr, ha⟩ | ⟨er, ha, hlev⟩
    · rw [ha]
      exact Or.inl ⟨ast, rest', rfl⟩
    · rw [ha]
      exact Or.inr ⟨er, rfl, hlev⟩
  | err er => rw [hres] at hE; exact Or.inr ⟨er, rfl, hE⟩
  | panic => rw [hres] at hE; exact False.elim hE
  | fuelOut => rw [hres] at hE; exact False.elim hE

/-- Claim C9: on every token sequence the tokenizer can successfully produce,
the parser never reads past the end of the stream — the modelled
`peek().unwrap()`/`next().unwrap()` panics are unreachable — so `parse`
returns either an AST or a `Parse`-level syntax error. -/
theorem claim_C9 :
    ∀ (cs : List Char) (ts : List Token), lexicon cs = .ok ts →
      (∃ ast rest, parse ts = .ok ast rest) ∨
      (∃ er, parse ts = .err er ∧ er.level = "Parse") :=
  fun _cs _ts h => parse_sound (lexicon_ok_mem_end h)

theorem claim_C9_witness :
    (∃ ast rest, parse [Token.Number 7, Token.End] = .ok ast rest) ∨
    (∃ er, parse [Token.Number 7, Token.End] = .err er ∧ er.level = "Parse") :=
  claim_C9 ['7'] [Token.Number 7, Token.End] (by decide)

/-- Claim C7: `parse` parses one expression and then asserts `End`; whenever
tokens other than the `End` sentinel remain after the first complete
expression, it reports a `Parse`-level syntax error rather than ignoring
them. -/
theorem claim_C7 :
    ∀ (ts : List Token) (ast : Expression) (rest : List Token),
      expression ts = .ok ast rest → rest.head? ≠ some Token.End →
      ∃ er, parse ts = .err er ∧ er.level = "Parse" := by
  intro ts ast rest h hne
  unfold expression at h
  unfold parse parseF
  rw [h]
  simp only [PRes.andThen]
  rcases rest with _ | ⟨x, xs⟩
  · exact ⟨SyntaxError.new_parse_error "End of input unexpected", rfl, rfl⟩
  · have hx : ¬(x = Token.End) := fun hx => hne (by simp [hx])
    simp only [assert_next, if_neg hx]
    exact ⟨_, rfl, rfl⟩

theorem claim_C7_witness :
    ∃ er, parse [Token.Number 1, Token.Number 2, Token.End] = .err er ∧
      er.level = "Parse" :=
  claim_C7 [Token.Number 1, Token.Number 2, Token.End] (.Number 1)
    [Token.Number 2, Token.End] (by decide) (by decide)

/-! ### Flat left-associative chaining -/

/-- One of the four binary-operator tokens. -/
inductive OpTok where
  | plus  : OpTok
  | dash  : OpTok
  | star  : OpTok
  | slash : OpTok
deriving DecidableEq

/-- The token carrying a binary operator. -/
def OpTok.token : OpTok → Token
  | .plus => .Plus
  | .dash => .Dash
  | .star => .Star
  | .slash => .Slash

/-- The operator the parser builds for a binary-operator token. -/
def OpTok.operator : OpTok → Operator
  | .plus => .Add
  | .dash => .Subtract
  | .star => .Multiply
  | .slash => .Divide

/-- Token stream of an operator/number chain `op1 n1 op2 n2 ...`. -/
def chainToks : List (OpTok × Int) → List Token
  | [] => []
  | (o, n) :: rest => o.token :: Token.Number n :: chainToks rest

/-- The strictly left-associative tree the flat chaining builds: each
operator/number pair wraps the accumulator on the left. -/
def chainExpr : Expression → List (OpTok × Int) → Expression
  | acc, [] => acc
  | acc, (o, n) :: rest => chainExpr (.Binary o.operator acc (.Number n)) rest

theorem chainToks_length : ∀ l : List (OpTok × Int), (chainToks l).length = 2 * l.length := by
  intro l
  induction l with
  | nil => rfl
  | cons p rest ih =>
    rcases p with ⟨o, n⟩
    simp only [chainToks, List.length_cons, ih]
    omega

/-- The chaining loop folds an operator/number chain strictly left-to-right,
for any mix of the four operators, with no precedence distinction. -/
theorem exprLoopF_chain :
    ∀ (l : List (OpTok × Int)) (fuel : Nat) (acc : Expression),
      l.length + 1 ≤ fuel →
      exprLoopF fuel acc (chainToks l ++ [Token.End]) =
        .ok (chainExpr acc l) [Token.End] := by
  intro l
  induction l with
  | nil =>
    intro fuel acc hfuel
    rcases fuel with _ | fuel
    · omega
    · simp [chainToks, chainExpr, exprLoopF]
  | cons p rest ih =>
    rcases p with ⟨o, n⟩
    intro fuel acc hfuel
    rcases fuel with _ | fuel
    · omega
    · rcases fuel with _ | fuel
      · simp only [List.length_cons] at hfuel
        omega
      · cases o <;>
          simp only [chainToks, chainExpr, OpTok.token, OpTok.operator,
            List.cons_append, exprLoopF, primaryF, PRes.andThen] <;>
          exact ih (fuel + 1) _ (by simp only [List.length_cons] at hfuel; omega)

/-- `expression` on `n0 op1 n1 ... End` yields the left-associative chain
tree and stops right before the sentinel. -/
theorem expressionF_chain :
    ∀ (l : List (OpTok × Int)) (fuel : Nat) (n0 : Int), l.length + 2 ≤ fuel →
      expressionF fuel (Token.Number n0 :: chainToks l ++ [Token.End]) =
        .ok (chainExpr (.Number n0) l) [Token.End] := by
  intro l fuel n0 hfuel
  rcases fuel with _ | fuel
  · omega
  rcases fuel with _ | fuel
  · omega
  simp only [expressionF, primaryF, PRes.andThen]
  exact exprLoopF_chain l (fuel + 1) (.Number n0) (by omega)

/-- Claim C2: binary operators chain strictly left-to-right with no
precedence distinction — for every operator/number chain the parser returns
the left-folded tree; in particular the encoding of `3 + 2 * 4` parses as
`(3 + 2) * 4` and evaluates to 20, and the encoding of `3 * 4 + 2` parses as
`(3 * 4) + 2` and evaluates to 14, never with multiplication binding
tighter. -/
theorem claim_C2 :
    (∀ (l : List (OpTok × Int)) (n0 : Int),
        parse (Token.Number n0 :: chainToks l ++ [Token.End]) =
          .ok (chainExpr (.Number n0) l) []) ∧
    lexicon ['3', 'a', '2', 'c', '4'] = .ok [Token.Number 3, Token.Plus,
      Token.Number 2, Token.Star, Token.Number 4, Token.End] ∧
    parse [Token.Number 3, Token.Plus, Token.Number 2, Token.Star,
        Token.Number 4, Token.End] =
      .ok (.Binary .Multiply (.Binary .Add (.Number 3) (.Number 2)) (.Number 4)) [] ∧
    (Expression.Binary .Multiply (.Binary .Add (.Number 3) (.Number 2))
        (.Number 4)).eval = some 20 ∧
    lexicon ['3', 'c', '4', 'a', '2'] = .ok [Token.Number 3, Token.Star,
      Token.Number 4, Token.Plus, Token.Number 2, Token.End] ∧
    parse [Token.Number 3, Token.Star, Token.Number 4, Token.Plus,
        Token.Number 2, Token.End] =
      .ok (.Binary .Add (.Binary .Multiply (.Number 3) (.Number 4)) (.Number 2)) [] ∧
    (Expression.Binary .Add (.Binary .Multiply (.Number 3) (.Number 4))
        (.Number 2)).eval = some 14 ∧
    eval_expr ['3', 'a', '2', 'c', '4'] = .ok 20 ∧
    eval_expr ['3', 'c', '4', 'a', '2'] = .ok 14 := by
  refine ⟨?_, by decide, by decide, by decide, by decide, by decide, by decide,
    by decide, by decide⟩
  intro l n0
  unfold parse parseF
  rw [expressionF_chain l (parseFuel (Token.Number n0 :: chainToks l ++ [Token.End])) n0
    (by simp [parseFuel, chainToks_length]; omega)]
  simp [PRes.andThen, PRes.ofAssert, assert_next]

/-- Claim C1: the full pipeline returns the listed integers on the seven
concrete scenario inputs. -/
theorem claim_C1 :
    eval_expr ['3', 'a', '2', 'c', '4'] = .ok 20 ∧
    eval_expr ['3', '2', 'a', '2', 'd', '2'] = .ok 17 ∧
    eval_expr ['5', '0', '0', 'a', '1', '0', 'b', '6', '6', 'c', '3', '2'] = .ok 14208 ∧
    eval_expr ['3', 'a', 'e', '4', 'c', '6', '6', 'f', 'b', '3', '2'] = .ok 235 ∧
    eval_expr ['3', 'c', '4', 'd', '2', 'a', 'e', 'e', '2', 'a', '4', 'c', '4',
      '1', 'f', 'c', '4', 'f'] = .ok 990 ∧
    eval_expr ['7'] = .ok 7 ∧
    eval_expr ['b', '1'] = .ok (-1) := by
  refine ⟨by decide, by decide, by decide, by decide, by decide, by decide, by decide⟩

/-- Claim C10: the evaluator ignores the operator a unary node carries —
every `Unary op e` evaluates to the negation of `e` — while a binary node
carrying `Negative` falls into the `panic!` catch-all (modelled `none`). -/
theorem claim_C10 :
    (∀ (op : Operator) (e : Expression),
        (Expression.Unary op e).eval = Option.map (fun v => -1 * v) e.eval) ∧
    (∀ l r : Expression, (Expression.Binary Operator.Negative l r).eval = none) :=
  ⟨fun _ _ => rfl, fun _ _ => rfl⟩

/-- Claim C3: evaluator semantics on well-formed nodes — numbers evaluate to
themselves, unary negation negates, the `Add`/`Subtract`/`Multiply` nodes
apply the corresponding integer operation to the children's values, and
`Divide` applies truncating integer division whenever the divisor is
nonzero. -/
theorem claim_C3 :
    (∀ n : Int, (Expression.Number n).eval = some n) ∧
    (∀ (e : Expression) (v : Int), e.eval = some v →
        (Expression.Unary Operator.Negative e).eval = some (-v)) ∧
    (∀ (l r : Expression) (a b : Int), l.eval = some a → r.eval = some b →
        (Expression.Binary Operator.Add l r).eval = some (a + b) ∧
        (Expression.Binary Operator.Subtract l r).eval = some (a - b) ∧
        (Expression.Binary Operator.Multiply l r).eval = some (a * b)) ∧
    (∀ (l r : Expression) (a b : Int), l.eval = some a → r.eval = some b →
        b ≠ 0 → (Expression.Binary Operator.Divide l r).eval = some (Int.tdiv a b)) := by
  refine ⟨fun n => rfl, ?_, ?_, ?_⟩
  · intro e v h
    simp [Expression.eval, h]
  · intro l r a b hl hr
    refine ⟨?_, ?_, ?_⟩ <;> simp [Expression.eval, hl, hr]
  · intro l r a b hl hr hb
    simp [Expression.eval, hl, hr, hb]

theorem claim_C3_witness :
    (Expression.Unary Operator.Negative (Expression.Number 5)).eval = some (-5) ∧
    (Expression.Binary Operator.Add (Expression.Number 2)
      (Expression.Number 3)).eval = some (2 + 3) ∧
    (Expression.Binary Operator.Divide
      (Expression.Unary Operator.Negative (Expression.Number 7))
      (Expression.Number 2)).eval = some (Int.tdiv (-7) 2) :=
  ⟨claim_C3.2.1 (Expression.Number 5) 5 rfl,
   (claim_C3.2.2.1 (Expression.Number 2) (Expression.Number 3) 2 3 rfl rfl).1,
   claim_C3.2.2.2 (Expression.Unary Operator.Negative (Expression.Number 7))
     (Expression.Number 2) (-7) 2
     (claim_C3.2.1 (Expression.Number 7) 7 rfl) rfl (by decide)⟩
